import Mathlib

/-!
Verification of the borrow-declaration and scheduling core of the
`hecs-schedule` crate against its specification.

The Rust source is shallowly embedded: compile-time type identities
(`std::any::TypeId` / `hecs::TypeInfo`) are modelled as `Nat`, the
`Access` descriptor and all borrow-set computations are translated from
`src/access.rs`, `src/borrow/*.rs`, the schedule builder from
`src/schedule.rs`, the command buffer from `src/commandbuffer.rs`, the
context lookup from `src/context/mod.rs`, and the subworld operations
from `src/subworld.rs`.  External collaborators (the `hecs` world, the
`atomic_refcell` cells) are modelled only through the contracts the crate
relies on, as delimited by the specification's "out of scope" section.
-/

namespace HecsSchedule

/-- An access descriptor, `Access` in `src/access.rs`: a type identity
(`TypeInfo` / `TypeId`, modelled as `Nat`) plus an exclusivity flag.  The
human-readable `name` field only feeds error messages and is omitted. -/
structure Access where
  id : Nat
  exclusive : Bool
deriving DecidableEq, Repr

/-- `IntoAccess::compatible` from `src/access.rs`.  The impl for `&T`
(a shared left-hand access) returns `l.info == r.info && !r.exclusive`
(lines 66-71); the impl for `&mut T` (an exclusive left-hand access)
returns `l.info == r.info` (lines 83-88). -/
def compatible (l r : Access) : Bool :=
  if l.exclusive then l.id == r.id else l.id == r.id && !r.exclusive

/-- Tuple `ComponentAccess::has` from `src/access.rs` (lines 164-185):
the disjunction of per-element `compatible` over the declared accesses. -/
def hasAccess (decl : List Access) (u : Access) : Bool :=
  decl.any fun t => compatible t u

/-- Tuple `Subset::is_subset` from `src/access.rs` (lines 176-180):
the conjunction over the elements of the query of membership in the
declaration. -/
def isSubset (q decl : List Access) : Bool :=
  q.all fun a => hasAccess decl a

/-- C4: the implemented compatibility test equals the specification's
formula `compatible(L, R) = L.id == R.id && (!R.exclusive || L.exclusive
== R.exclusive)`; in particular a shared access is compatible exactly
with shared accesses of the same type id, and an exclusive access is
compatible with any access of the same type id. -/
theorem compatible_eq_spec_formula (l r : Access) :
    compatible l r = (l.id == r.id && (!r.exclusive || l.exclusive == r.exclusive)) ∧
    (l.exclusive = false → (compatible l r = true ↔ l.id = r.id ∧ r.exclusive = false)) ∧
    (l.exclusive = true → (compatible l r = true ↔ l.id = r.id)) := by
  refine ⟨?_, ?_, ?_⟩
  · cases hl : l.exclusive <;> cases hr : r.exclusive <;>
      simp [compatible, hl, hr]
  · intro hl
    cases hr : r.exclusive <;> simp [compatible, hl, hr]
  · intro hl
    simp [compatible, hl]

/-- Closed instance of `compatible_eq_spec_formula`, discharging its
hypotheses at concrete accesses. -/
theorem compatible_eq_spec_formula_witness :
    (Access.mk 3 false).exclusive = false ∧
      (compatible ⟨3, false⟩ ⟨3, false⟩ = true ↔
        (Access.mk 3 false).id = (Access.mk 3 false).id ∧
          (Access.mk 3 false).exclusive = false) :=
  ⟨rfl, (compatible_eq_spec_formula ⟨3, false⟩ ⟨3, false⟩).2.1 rfl⟩

/-- The crate error type, `Error` in `src/error.rs`.  Type names and
entities are modelled as `Nat` tags; payloads that only feed `Display`
are kept when a claim mentions them. -/
inductive SError where
  | incompatibleSubworld : SError
  | noSuchEntity (entity : Nat) : SError
  | missingComponent (entity comp : Nat) : SError
  | unsatisfiedQuery (entity : Nat) : SError
  | missingData (name : Nat) : SError
  | borrowShared (name : Nat) : SError
  | borrowExclusive (name : Nat) : SError
  | systemError (name cause : Nat) : SError
deriving DecidableEq, Repr

/-! ## Subworld queries and component lookups (`src/subworld.rs`)

The external `hecs` world is out of scope; for `try_query` the only fact
used is that `self.world.query()` hands back the world's query borrow,
modelled as the pair of the world value and the query's access list.
For `get`/`get_mut` the world is modelled as an association list from
entity id to the component type ids present on that entity, and the
returned `Ref`/`RefMut` as a token recording entity, component and
reference kind. -/

/-- `GenericWorld::try_query` for `SubWorldRaw` (src/subworld.rs lines
286-296): errs with `IncompatibleSubworld` when `Q` is not a subset of
the declaration `T`, otherwise returns the world's query. -/
def tryQuery (decl q : List Access) (w : Nat) : Except SError (Nat × List Access) :=
  if !(isSubset q decl) then
    .error .incompatibleSubworld
  else
    .ok (w, q)

/-- `SubWorldRaw::query` (src/subworld.rs lines 63-69): `try_query`
followed by `expect`, i.e. a panic on the error case.  The panic is
modelled as `none`. -/
def querySW (decl q : List Access) (w : Nat) : Option (Nat × List Access) :=
  (tryQuery decl q w).toOption

/-- The reference kind handed out by a component lookup. -/
inductive RefKind where
  | shared : RefKind
  | exclusive : RefKind
deriving DecidableEq, Repr

/-- Token for an `hecs::Ref`/`hecs::RefMut` returned by `get`/`get_mut`. -/
structure CompRef where
  entity : Nat
  comp : Nat
  kind : RefKind
deriving DecidableEq, Repr

/-- Model of the world for single-component lookups: entity id to the
list of component type ids present on it. -/
abbrev EWorld := List (Nat × List Nat)

/-- `SubWorldRaw::get` (src/subworld.rs lines 92-107): checks
`self.has::<&C>()` first, then defers to the world's `get`, translating
the `hecs` errors. -/
def swGet (decl : List Access) (w : EWorld) (entity comp : Nat) :
    Except SError CompRef :=
  if !(hasAccess decl ⟨comp, false⟩) then
    .error .incompatibleSubworld
  else
    match w.lookup entity with
    | none => .error (.noSuchEntity entity)
    | some comps =>
      if comp ∈ comps then .ok ⟨entity, comp, .shared⟩
      else .error (.missingComponent entity comp)

/-- `SubWorldRaw::get_mut` (src/subworld.rs lines 112-127): the guard is
the same shared-access test `self.has::<&C>()` as in `get`, but the
lookup hands out an exclusive reference. -/
def swGetMut (decl : List Access) (w : EWorld) (entity comp : Nat) :
    Except SError CompRef :=
  if !(hasAccess decl ⟨comp, false⟩) then
    .error .incompatibleSubworld
  else
    match w.lookup entity with
    | none => .error (.noSuchEntity entity)
    | some comps =>
      if comp ∈ comps then .ok ⟨entity, comp, .exclusive⟩
      else .error (.missingComponent entity comp)

/-- C5: `try_query` returns `IncompatibleSubworld` exactly when some
element of the query is compatible with no access of the declaration,
returns the world's query otherwise, and the infallible `query` panics
exactly in the non-subset case. -/
theorem tryQuery_incompatible_iff (decl q : List Access) (w : Nat) :
    (tryQuery decl q w = .error .incompatibleSubworld ↔
      ¬ (∀ a ∈ q, ∃ t ∈ decl, compatible t a = true)) ∧
    (isSubset q decl = true → tryQuery decl q w = .ok (w, q)) ∧
    ((querySW decl q w).isNone = true ↔ isSubset q decl = false) := by
  have hsub : isSubset q decl = true ↔ ∀ a ∈ q, ∃ t ∈ decl, compatible t a = true := by
    simp [isSubset, hasAccess, List.all_eq_true, List.any_eq_true]
  refine ⟨?_, ?_, ?_⟩
  · rcases h : isSubset q decl with _ | _
    · simp only [tryQuery, h]
      simp [← hsub, h]
    · simp only [tryQuery, h]
      simp [← hsub, h]
  · intro h
    simp [tryQuery, h]
  · rcases h : isSubset q decl with _ | _ <;>
      simp [querySW, tryQuery, h, Except.toOption]

/-- Closed instance of `tryQuery_incompatible_iff`, discharging its
subset hypothesis at a concrete declaration and query. -/
theorem tryQuery_incompatible_iff_witness :
    isSubset [Access.mk 1 false] [Access.mk 1 false, Access.mk 1 true] = true ∧
      tryQuery [⟨1, false⟩, ⟨1, true⟩] [⟨1, false⟩] 7 = .ok (7, [⟨1, false⟩]) :=
  ⟨by decide,
    (tryQuery_incompatible_iff [⟨1, false⟩, ⟨1, true⟩] [⟨1, false⟩] 7).2.1 (by decide)⟩

/-- C9: the permission check of `get_mut` is the same shared-access test
`has::<&C>()` used by `get` — both reject with `IncompatibleSubworld`
under exactly the same condition — and consequently a subworld whose
declaration contains only the shared access `&C` still passes `get_mut`'s
check and hands out an exclusive component reference. -/
theorem swGetMut_check_eq_swGet (decl : List Access) (w : EWorld) (e c : Nat) :
    (swGetMut decl w e c = .error .incompatibleSubworld ↔
      hasAccess decl ⟨c, false⟩ = false) ∧
    (swGet decl w e c = .error .incompatibleSubworld ↔
      hasAccess decl ⟨c, false⟩ = false) ∧
    swGetMut [⟨c, false⟩] [(e, [c])] e c = .ok ⟨e, c, .exclusive⟩ := by
  refine ⟨?_, ?_, ?_⟩
  · rcases h : hasAccess decl ⟨c, false⟩ with _ | _
    · simp [swGetMut, h]
    · simp only [swGetMut, h]
      rcases hw : w.lookup e with _ | comps
      · simp
      · by_cases hc : c ∈ comps <;> simp [hc]
  · rcases h : hasAccess decl ⟨c, false⟩ with _ | _
    · simp [swGet, h]
    · simp only [swGet, h]
      rcases hw : w.lookup e with _ | comps
      · simp
      · by_cases hc : c ∈ comps <;> simp [hc]
  · simp [swGetMut, hasAccess, compatible, List.lookup]

/-! ## Optional context borrows (`src/borrow/maybe_borrow.rs`)

The `atomic_refcell` crate is external; its contract is that
`try_borrow` fails exactly when a writer holds the cell, and
`try_borrow_mut` fails exactly when any reader or writer holds it.  A
cell's runtime borrow state is modelled by the reader count and writer
flag. -/

/-- Runtime borrow state of an `AtomicRefCell`. -/
structure CellState where
  readers : Nat
  writer : Bool
deriving DecidableEq, Repr

/-- `AtomicRefCell::try_borrow` succeeds iff no writer holds the cell
(contract of the external `atomic_refcell` crate). -/
def cellTryBorrow (c : CellState) : Bool := !c.writer

/-- `AtomicRefCell::try_borrow_mut` succeeds iff the cell is entirely
unborrowed (contract of the external `atomic_refcell` crate). -/
def cellTryBorrowMut (c : CellState) : Bool := !c.writer && c.readers == 0

/-- `MaybeRead::try_from_untyped` (src/borrow/maybe_borrow.rs lines
53-68): on a found cell, a failed shared borrow becomes
`Error::Borrow`; a `MissingData` lookup failure becomes `Ok(None)`; any
other error is forwarded. -/
def maybeReadFromUntyped (name : Nat) (cell : Except SError CellState) :
    Except SError (Option CellState) :=
  match cell with
  | .ok c =>
    if cellTryBorrow c then .ok (some c) else .error (.borrowShared name)
  | .error (.missingData _) => .ok none
  | .error e => .error e

/-- `MaybeWrite::try_from_untyped` (src/borrow/maybe_borrow.rs lines
106-121): as `MaybeRead` but with an exclusive borrow and
`Error::BorrowMut`. -/
def maybeWriteFromUntyped (name : Nat) (cell : Except SError CellState) :
    Except SError (Option CellState) :=
  match cell with
  | .ok c =>
    if cellTryBorrowMut c then .ok (some c) else .error (.borrowExclusive name)
  | .error (.missingData _) => .ok none
  | .error e => .error e

/-- C10: when the context has no entry of the requested type
(`MissingData`), `MaybeRead`/`MaybeWrite` borrow succeeds with an empty
handle; when the entry exists but is incompatibly borrowed, the borrow
fails with `Borrow` (resp. `BorrowMut`) instead of yielding an empty
handle. -/
theorem maybeBorrow_missing_vs_conflict (name missing : Nat) (c : CellState) :
    maybeReadFromUntyped name (.error (.missingData missing)) = .ok none ∧
    maybeWriteFromUntyped name (.error (.missingData missing)) = .ok none ∧
    (c.writer = true →
      maybeReadFromUntyped name (.ok c) = .error (.borrowShared name)) ∧
    (c.writer = true ∨ c.readers ≠ 0 →
      maybeWriteFromUntyped name (.ok c) = .error (.borrowExclusive name)) := by
  refine ⟨rfl, rfl, ?_, ?_⟩
  · intro h
    simp [maybeReadFromUntyped, cellTryBorrow, h]
  · intro h
    rcases h with h | h
    · simp [maybeWriteFromUntyped, cellTryBorrowMut, h]
    · simp [maybeWriteFromUntyped, cellTryBorrowMut, h]

/-- Closed instance of `maybeBorrow_missing_vs_conflict` at a cell held
by a writer, discharging both conflict hypotheses. -/
theorem maybeBorrow_missing_vs_conflict_witness :
    maybeReadFromUntyped 4 (.ok ⟨0, true⟩) = .error (.borrowShared 4) ∧
      maybeWriteFromUntyped 4 (.ok ⟨0, true⟩) = .error (.borrowExclusive 4) :=
  ⟨(maybeBorrow_missing_vs_conflict 4 0 ⟨0, true⟩).2.2.1 rfl,
    (maybeBorrow_missing_vs_conflict 4 0 ⟨0, true⟩).2.2.2 (Or.inl rfl)⟩

/-! ## Command buffer (`src/commandbuffer.rs`)

The `hecs` world that a replay mutates is out of scope; the world is
modelled as the log of mutations applied to it, so that the order of the
replay is observable.  The internal `hecs::CommandBuffer` that
accumulates spawn/insert bundle operations is external; its contract,
relied on through `run_on`, is that the recorded bundle operations are
applied in order and the buffer is cleared.  Recorded operations are
opaque `Nat` payloads where their content does not matter. -/

/-- A deferred `WriteCmd` (src/commandbuffer.rs lines 8-39): either a
`RemoveCmd` produced by `remove`/`remove_one`, or an arbitrary recorded
closure. -/
inductive WriteCmd where
  | removeCmd (entity bundle : Nat) : WriteCmd
  | closure (tag : Nat) : WriteCmd
deriving DecidableEq, Repr

/-- One world mutation, as observed in the world's mutation log. -/
inductive WorldEvent where
  | bundleOp (tag : Nat) : WorldEvent
  | writeOp (w : WriteCmd) : WorldEvent
  | despawnOp (entity : Nat) : WorldEvent
deriving DecidableEq, Repr

/-- The world, observed as its mutation log. -/
abbrev WorldT := List WorldEvent

/-- `CommandBuffer` (src/commandbuffer.rs lines 48-53): the internal
`hecs::CommandBuffer` holding accumulated spawn/insert bundle
operations, the despawn list and the write command list. -/
structure CommandBuffer where
  components : List Nat
  despawns : List Nat
  writes : List WriteCmd
deriving DecidableEq, Repr

/-- The empty command buffer (`CommandBuffer::default`). -/
def CommandBuffer.empty : CommandBuffer := ⟨[], [], []⟩

/-- `hecs::CommandBuffer::run_on` (external contract): applies each
accumulated bundle operation to the world in order. -/
def runOn (w : WorldT) (cmds : List Nat) : WorldT :=
  cmds.foldl (fun w tag => w ++ [.bundleOp tag]) w

/-- `CommandBuffer::execute` (src/commandbuffer.rs lines 92-101): runs
the accumulated bundle operations on the world, then drains the write
commands in order, then drains the despawns in order. -/
def CommandBuffer.execute (cb : CommandBuffer) (w : WorldT) :
    WorldT × CommandBuffer :=
  let w := runOn w cb.components
  let w := cb.writes.foldl (fun w c => w ++ [.writeOp c]) w
  let w := cb.despawns.foldl (fun w e => w ++ [.despawnOp e]) w
  (w, .empty)

/-- Folding an event-appending step over a list appends the mapped
list. -/
theorem foldl_append_eq_map {α : Type} (f : α → WorldEvent) :
    ∀ (l : List α) (w : WorldT),
      l.foldl (fun w a => w ++ [f a]) w = w ++ l.map f := by
  intro l
  induction l with
  | nil => intro w; simp
  | cons a l ih =>
    intro w
    simp [ih]

/-- C6: `CommandBuffer::execute` replays all accumulated spawn/insert
bundle operations first, then the recorded write commands (remove,
remove_one and arbitrary closures) in insertion order, then the recorded
despawns in insertion order, and drains all three lists. -/
theorem commandBuffer_execute_order (cb : CommandBuffer) (w : WorldT) :
    cb.execute w =
      (w ++ cb.components.map .bundleOp ++ cb.writes.map .writeOp ++
        cb.despawns.map .despawnOp, CommandBuffer.empty) := by
  simp [CommandBuffer.execute, runOn, foldl_append_eq_map]

/-! ## Systems and the schedule builder (`src/schedule.rs`)

A `DynamicSystem` is stored as its borrow set plus an erased closure.
The closure's observable behaviour in this model: a user system records
operations into the always-available command buffer and then returns
`Ok` or `Err` (the wrapper turns a user error into `SystemError`), and
the built-in `flush_system` (src/schedule.rs lines 296-301) executes the
command buffer on the world when a world is present.  The `sid` field is
model bookkeeping that lets execution traces name systems. -/

/-- The behaviour of a system's erased closure. -/
inductive SysKind where
  | user (rec : CommandBuffer) (fail : Option Nat) : SysKind
  | flushSys : SysKind
deriving DecidableEq, Repr

/-- A type-erased system: its borrow set plus its behaviour
(`DynamicSystem`, src/schedule.rs lines 85-89). -/
structure DynSystem where
  sid : Nat
  borrows : List Access
  kind : SysKind
deriving DecidableEq, Repr

/-- The `TypeId` of `hecs::World` in this model. -/
def worldTypeId : Nat := 100

/-- The `TypeId` keyed by `Write<CommandBuffer>`'s borrow declaration
(`BorrowMarker<CommandBuffer>`, src/borrow/cell_borrow.rs) in this
model. -/
def cmdBufTypeId : Nat := 101

/-- The borrow set of `flush_system` (src/schedule.rs line 296):
`MaybeWrite<World>` declares an exclusive access to the world
(src/borrow/maybe_borrow.rs lines 166-168) and `Write<CommandBuffer>`
declares an exclusive access to the command buffer marker
(src/borrow/cell_borrow.rs). -/
def flushBorrows : List Access := [⟨worldTypeId, true⟩, ⟨cmdBufTypeId, true⟩]

/-- The model id naming the flush system in execution traces. -/
def flushSid : Nat := 999

/-- The built-in flush system as a `DynSystem`. -/
def flushDyn : DynSystem := ⟨flushSid, flushBorrows, .flushSys⟩

/-- `current_borrows: HashMap<TypeId, Access>` modelled as an
association list in which insertion prepends; lookup takes the first
hit, so a later insertion for the same key overrides an earlier one
exactly as `HashMap::extend` does. -/
abbrev BorrowMap := List (Nat × Access)

/-- `HashMap::get`. -/
def BorrowMap.find (m : BorrowMap) (k : Nat) : Option Access :=
  (m.find? fun p => p.1 == k).map (·.2)

/-- `ScheduleBuilder::add_borrows` (src/schedule.rs lines 263-266):
`current_borrows.extend` over the system's borrow set, keyed by the
access id; a later element overrides an earlier one for the same id. -/
def addBorrows (m : BorrowMap) (borrows : List Access) : BorrowMap :=
  borrows.foldl (fun m b => (b.id, b) :: m) m

/-- `ScheduleBuilder::check_compatible` (src/schedule.rs lines 269-281):
false iff some borrow of the new system hits a current entry of the same
id with either side exclusive. -/
def checkCompatible (m : BorrowMap) (borrows : List Access) : Bool :=
  borrows.all fun b =>
    match BorrowMap.find m b.id with
    | some curr => !(curr.exclusive || b.exclusive)
    | none => true

/-- The state of a `ScheduleBuilder` (src/schedule.rs lines 190-194). -/
structure BuilderState where
  batches : List (List DynSystem)
  currentBatch : List DynSystem
  currentBorrows : BorrowMap
deriving DecidableEq, Repr

/-- `ScheduleBuilder::default`. -/
def BuilderState.initial : BuilderState := ⟨[], [], []⟩

/-- `ScheduleBuilder::barrier` (src/schedule.rs lines 247-255): pushes
the current batch (even when empty) and clears the current borrows. -/
def barrier (st : BuilderState) : BuilderState :=
  { batches := st.batches ++ [st.currentBatch]
    currentBatch := []
    currentBorrows := [] }

/-- `ScheduleBuilder::add_internal` (src/schedule.rs lines 211-222):
seal the current batch when the new system's borrows conflict, then
extend the current borrows and append the system to the current
batch. -/
def addInternal (st : BuilderState) (s : DynSystem) : BuilderState :=
  let st := if checkCompatible st.currentBorrows s.borrows then st else barrier st
  { st with
    currentBorrows := addBorrows st.currentBorrows s.borrows
    currentBatch := st.currentBatch ++ [s] }

/-- One builder call.  `add_system` and `flush` both go through
`add_internal`; `append(other)` first seals `other` and then drains its
systems in order through `add_internal` on `self` (src/schedule.rs lines
228-239), so any sequence of `add_system` / `append` / `barrier` /
`flush` calls acts on the builder state as a sequence of these two
primitive operations. -/
inductive BuilderOp where
  | addSystem (s : DynSystem) : BuilderOp
  | barrierOp : BuilderOp
deriving DecidableEq, Repr

/-- Apply one builder call to the state.  `flush` (src/schedule.rs lines
258-261) is `addSystem flushDyn`. -/
def applyOp (st : BuilderState) : BuilderOp → BuilderState
  | .addSystem s => addInternal st s
  | .barrierOp => barrier st

/-- Run a sequence of builder calls from the default state. -/
def runOps (ops : List BuilderOp) : BuilderState :=
  ops.foldl applyOp .initial

/-- `ScheduleBuilder::build` (src/schedule.rs lines 284-292): a trailing
`flush` then a final `barrier`. -/
def buildState (st : BuilderState) : BuilderState :=
  barrier (addInternal st flushDyn)

/-- The batches of the schedule built from a sequence of builder
calls. -/
def buildSchedule (ops : List BuilderOp) : List (List DynSystem) :=
  (buildState (runOps ops)).batches

/-- Two accesses conflict iff they share the type id and at least one is
exclusive (spec section 3). -/
def accessConflicts (a b : Access) : Bool :=
  a.id == b.id && (a.exclusive || b.exclusive)

/-- No access of `s` conflicts with any access of `t`. -/
def sysCompatB (s t : DynSystem) : Bool :=
  s.borrows.all fun a => t.borrows.all fun b => !(accessConflicts a b)

/-- Every pair of distinct systems in the batch is conflict-free
(property P1 of the spec). -/
def batchCompatB : List DynSystem → Bool
  | [] => true
  | s :: rest => rest.all (sysCompatB s) && batchCompatB rest

/-- The last access of `borrows` with id `t`, i.e. the value that
`HashMap::extend` leaves for key `t`. -/
def lastFor (borrows : List Access) (t : Nat) : Option Access :=
  (borrows.filter fun a => a.id == t).getLast?

/-- A borrow set never lets `extend` downgrade an exclusive entry: if
some access with id `t` is exclusive then the last access with id `t` is
exclusive. -/
def noDowngradeB (borrows : List Access) : Bool :=
  borrows.all fun a =>
    !a.exclusive ||
      (match lastFor borrows a.id with
       | some b => b.exclusive
       | none => false)

/-- `noDowngradeB` for every system added by the call sequence. -/
def opsOk (ops : List BuilderOp) : Bool :=
  ops.all fun op =>
    match op with
    | .addSystem s => noDowngradeB s.borrows
    | .barrierOp => true

/-! ### Lemmas about the borrow map -/

theorem BorrowMap.find_nil (t : Nat) : BorrowMap.find [] t = none := rfl

theorem BorrowMap.find_cons (k : Nat) (v : Access) (m : BorrowMap) (t : Nat) :
    BorrowMap.find ((k, v) :: m) t = if k = t then some v else BorrowMap.find m t := by
  by_cases h : k = t
  · simp [BorrowMap.find, List.find?, h]
  · have hb : (k == t) = false := by simp [h]
    simp [BorrowMap.find, List.find?, hb, h]

theorem lastFor_cons (b : Access) (bs : List Access) (t : Nat) :
    lastFor (b :: bs) t =
      match lastFor bs t with
      | some a => some a
      | none => if b.id = t then some b else none := by
  rcases hf : lastFor bs t with _ | a
  · have hnil : bs.filter (fun a => a.id == t) = [] :=
      List.getLast?_eq_none_iff.mp hf
    by_cases h : b.id = t
    · have hb : (b.id == t) = true := by simp [h]
      simp [lastFor, List.filter_cons, hb, hnil, h]
    · have hb : (b.id == t) = false := by simp [h]
      simp [lastFor, List.filter_cons, hb, hnil, h]
  · have hne : bs.filter (fun a => a.id == t) ≠ [] := by
      intro hnil
      rw [lastFor, hnil] at hf
      simp at hf
    rcases hxl : bs.filter (fun a => a.id == t) with _ | ⟨x, xs⟩
    · exact absurd hxl hne
    · have hf' : (x :: xs).getLast? = some a := by
        rw [lastFor, hxl] at hf
        exact hf
      by_cases h : b.id = t
      · have hb : (b.id == t) = true := by simp [h]
        simp [lastFor, List.filter_cons, hb, hxl, List.getLast?_cons_cons, hf']
      · have hb : (b.id == t) = false := by simp [h]
        simp [lastFor, List.filter_cons, hb, hxl, hf']

theorem lastFor_mem {B : List Access} {t : Nat} {a : Access}
    (h : lastFor B t = some a) : a ∈ B ∧ a.id = t := by
  have hmem : a ∈ B.filter fun x => x.id == t := by
    rcases List.mem_getLast?_eq_getLast (Option.mem_def.mpr h) with ⟨hne, heq⟩
    rw [heq]
    exact List.getLast_mem hne
  have h1 := List.mem_filter.mp hmem
  exact ⟨h1.1, by simpa using h1.2⟩

theorem lastFor_isSome_of_mem {B : List Access} {a : Access}
    (ha : a ∈ B) : ∃ b, lastFor B a.id = some b := by
  have hmem : a ∈ B.filter fun x => x.id == a.id :=
    List.mem_filter.mpr ⟨ha, by simp⟩
  have hne : (B.filter fun x => x.id == a.id) ≠ [] := by
    intro hnil; rw [hnil] at hmem; exact List.not_mem_nil a hmem
  exact ⟨_, List.getLast?_eq_getLast_of_ne_nil hne⟩

/-- The value `extend` leaves in the map for key `t`: the last element
of the extension with id `t` when one exists, the old value otherwise. -/
theorem find_addBorrows (B : List Access) :
    ∀ (m : BorrowMap) (t : Nat),
      BorrowMap.find (addBorrows m B) t =
        match lastFor B t with
        | some a => some a
        | none => BorrowMap.find m t := by
  induction B with
  | nil => intro m t; simp [addBorrows, lastFor]
  | cons b bs ih =>
    intro m t
    have hstep : addBorrows m (b :: bs) = addBorrows ((b.id, b) :: m) bs := rfl
    rw [hstep, ih, lastFor_cons]
    rcases hf : lastFor bs t with _ | a
    · by_cases h : b.id = t <;> simp [BorrowMap.find_cons, h]
    · simp

theorem checkCompatible_spec {m : BorrowMap} {B : List Access}
    (h : checkCompatible m B = true) {b : Access} (hb : b ∈ B) {e : Access}
    (he : BorrowMap.find m b.id = some e) :
    e.exclusive = false ∧ b.exclusive = false := by
  have := (List.all_eq_true.mp h) b hb
  rw [he] at this
  simp only [Bool.not_eq_true'] at this
  rcases he' : e.exclusive with _ | _ <;> rcases hb' : b.exclusive with _ | _ <;>
    simp_all

theorem checkCompatible_nil (B : List Access) : checkCompatible [] B = true := by
  simp [checkCompatible, BorrowMap.find_nil]

/-! ### Pairwise compatibility of a batch -/

theorem batchCompatB_iff_pairwise (l : List DynSystem) :
    batchCompatB l = true ↔ l.Pairwise fun s t => sysCompatB s t = true := by
  induction l with
  | nil => simp [batchCompatB]
  | cons s rest ih =>
    simp [batchCompatB, List.pairwise_cons, ih, List.all_eq_true, and_comm]

theorem noConflict_of_compat {s t : DynSystem} (h : sysCompatB s t = true)
    {a b : Access} (ha : a ∈ s.borrows) (hb : b ∈ t.borrows) :
    accessConflicts a b = false := by
  have := (List.all_eq_true.mp ((List.all_eq_true.mp h) a ha)) b hb
  simpa using this

/-! ### The builder invariant -/

/-- Invariant of `ScheduleBuilder`: every sealed batch is pairwise
conflict-free, so is the current batch, and `current_borrows` covers the
current batch — every access of a system already in the current batch
has an entry for its id, and exclusivity is never under-recorded. -/
structure Inv (st : BuilderState) : Prop where
  sealedOk : ∀ b ∈ st.batches, batchCompatB b = true
  currentOk : batchCompatB st.currentBatch = true
  covered : ∀ s ∈ st.currentBatch, ∀ a ∈ s.borrows,
    ∃ e, BorrowMap.find st.currentBorrows a.id = some e ∧
      (a.exclusive = true → e.exclusive = true)

theorem inv_initial : Inv BuilderState.initial := by
  refine ⟨?_, ?_, ?_⟩ <;> simp [BuilderState.initial, batchCompatB]

theorem inv_barrier {st : BuilderState} (h : Inv st) : Inv (barrier st) := by
  refine ⟨?_, ?_, ?_⟩
  · intro b hb
    simp only [barrier, List.mem_append, List.mem_singleton] at hb
    rcases hb with hb | rfl
    · exact h.sealedOk b hb
    · exact h.currentOk
  · simp [barrier, batchCompatB]
  · intro s hs
    simp [barrier] at hs

/-- Core preservation step: appending a system that passed
`check_compatible` keeps the invariant, provided its borrow set never
downgrades an exclusive entry. -/
theorem inv_extend {st : BuilderState} {s : DynSystem} (hInv : Inv st)
    (hchk : checkCompatible st.currentBorrows s.borrows = true)
    (hnd : noDowngradeB s.borrows = true) :
    Inv { st with
          currentBorrows := addBorrows st.currentBorrows s.borrows
          currentBatch := st.currentBatch ++ [s] } := by
  have hcross : ∀ t ∈ st.currentBatch, sysCompatB t s = true := by
    intro t ht
    rw [sysCompatB, List.all_eq_true]
    intro a ha
    rw [List.all_eq_true]
    intro b hb
    rcases hInv.covered t ht a ha with ⟨e, he, hexc⟩
    by_cases hid : a.id = b.id
    · have he' : BorrowMap.find st.currentBorrows b.id = some e := by
        rw [← hid]; exact he
      rcases checkCompatible_spec hchk hb he' with ⟨heexc, hbexc⟩
      have haexc : a.exclusive = false := by
        rcases h : a.exclusive with _ | _
        · rfl
        · exact absurd (hexc h) (by simp [heexc])
      simp [accessConflicts, haexc, hbexc]
    · simp [accessConflicts, hid]
  refine ⟨?_, ?_, ?_⟩
  · intro b hb
    exact hInv.sealedOk b hb
  · rw [batchCompatB_iff_pairwise, List.pairwise_append]
    refine ⟨(batchCompatB_iff_pairwise _).mp hInv.currentOk, by simp, ?_⟩
    intro t ht b hb
    rw [List.mem_singleton] at hb
    subst hb
    exact hcross t ht
  · intro t ht a ha
    simp only [List.mem_append, List.mem_singleton] at ht
    rcases ht with ht | rfl
    · rcases hInv.covered t ht a ha with ⟨e, he, hexc⟩
      rw [find_addBorrows]
      rcases hl : lastFor s.borrows a.id with _ | b
      · exact ⟨e, by simp [he], hexc⟩
      · rcases lastFor_mem hl with ⟨hbmem, hbid⟩
        have he' : BorrowMap.find st.currentBorrows b.id = some e := by
          rw [hbid]; exact he
        rcases checkCompatible_spec hchk hbmem he' with ⟨heexc, _⟩
        refine ⟨b, by simp, ?_⟩
        intro haexc
        exact absurd (hexc haexc) (by simp [heexc])
    · rcases lastFor_isSome_of_mem ha with ⟨b, hb⟩
      rw [find_addBorrows]
      refine ⟨b, by simp [hb], ?_⟩
      intro haexc
      have := (List.all_eq_true.mp hnd) a ha
      rw [haexc, hb] at this
      simpa using this

theorem inv_addInternal {st : BuilderState} {s : DynSystem} (hInv : Inv st)
    (hnd : noDowngradeB s.borrows = true) : Inv (addInternal st s) := by
  rcases h : checkCompatible st.currentBorrows s.borrows with _ | _
  · have : addInternal st s =
        { barrier st with
          currentBorrows := addBorrows (barrier st).currentBorrows s.borrows
          currentBatch := (barrier st).currentBatch ++ [s] } := by
      simp [addInternal, h]
    rw [this]
    exact inv_extend (inv_barrier hInv) (checkCompatible_nil _) hnd
  · have : addInternal st s =
        { st with
          currentBorrows := addBorrows st.currentBorrows s.borrows
          currentBatch := st.currentBatch ++ [s] } := by
      simp [addInternal, h]
    rw [this]
    exact inv_extend hInv h hnd

theorem inv_runOps_from {st : BuilderState} (hInv : Inv st) :
    ∀ ops : List BuilderOp, opsOk ops = true →
      Inv (ops.foldl applyOp st) := by
  intro ops
  induction ops generalizing st with
  | nil => intro _; exact hInv
  | cons op rest ih =>
    intro hok
    simp only [opsOk, List.all_cons, Bool.and_eq_true] at hok
    have hst : Inv (applyOp st op) := by
      rcases op with s | _
      · exact inv_addInternal hInv hok.1
      · exact inv_barrier hInv
    exact ih hst hok.2

/-- C1 (amended): for every sequence of builder calls in which no added
system's borrow set downgrades an exclusive access — i.e. whenever a
system declares an exclusive access for a type id, its last declared
access for that id is also exclusive — every batch of the built schedule
is pairwise conflict-free. -/
theorem builder_batches_conflict_free (ops : List BuilderOp)
    (hok : opsOk ops = true) :
    ∀ b ∈ buildSchedule ops, batchCompatB b = true := by
  have h1 : Inv (runOps ops) := inv_runOps_from inv_initial ops hok
  have h2 : Inv (buildState (runOps ops)) :=
    inv_barrier (inv_addInternal h1 (by decide))
  exact h2.sealedOk

/-- A well-behaved call sequence: a shared then an exclusive access to
the same id, each from its own system. -/
def sampleOkOps : List BuilderOp :=
  [.addSystem ⟨1, [⟨5, false⟩], .user .empty none⟩,
   .addSystem ⟨2, [⟨5, true⟩], .user .empty none⟩]

/-- A call sequence exhibiting the downgrade hole: the first system
declares `[(5, exclusive), (5, shared)]` — the borrow set of a callable
taking `Write<i32>` then `Read<i32>` — and the second only
`[(5, shared)]`. -/
def downgradeOps : List BuilderOp :=
  [.addSystem ⟨1, [⟨5, true⟩, ⟨5, false⟩], .user .empty none⟩,
   .addSystem ⟨2, [⟨5, false⟩], .user .empty none⟩]

/-- Closed instance of `builder_batches_conflict_free`: two systems with
a shared and an exclusive access to the same id end up in conflict-free
batches. -/
theorem builder_batches_conflict_free_witness :
    opsOk sampleOkOps = true ∧
    batchCompatB ((buildSchedule sampleOkOps).getD 0 []) = true :=
  ⟨by decide,
    builder_batches_conflict_free sampleOkOps (by decide)
      ((buildSchedule sampleOkOps).getD 0 []) (by decide)⟩

/-- C1 counterexample: a system obtained from a callable taking
`Write<i32>` then `Read<i32>` declares the borrow set
`[(BorrowMarker<i32>, exclusive), (BorrowMarker<i32>, shared)]`;
`HashMap::extend` then records the shared access for that id, letting a
later `Read<i32>`-only system join the same batch, so the single batch
of the built schedule holds two distinct systems with conflicting
accesses for the same id, refuting the claim for arbitrary call
sequences. -/
theorem builder_batch_conflict_counterexample :
    batchCompatB ((buildSchedule downgradeOps).getD 0 []) = false ∧
    (buildSchedule downgradeOps).length = 1 := by
  constructor <;> decide

/-! ### Placement of the flush system (claim C2) -/

/-- Where `build`'s trailing flush lands: `flush` goes through
`add_system` like any other system, so it joins the current batch when
the accumulated borrows are compatible with its borrow set and only
otherwise seals first. -/
theorem buildState_batches (st : BuilderState) :
    (buildState st).batches =
      st.batches ++
        (if checkCompatible st.currentBorrows flushBorrows then
          [st.currentBatch ++ [flushDyn]]
        else
          [st.currentBatch, [flushDyn]]) := by
  rcases h : checkCompatible st.currentBorrows flushBorrows with _ | _ <;>
    simp [buildState, addInternal, barrier, flushDyn, h]

/-- C2 (amended): the flush system appended by `build()` is the last
system of the last batch, and it joins the current batch whenever the
batch's accumulated borrows are compatible with the flush system's
borrow set (`MaybeWrite<World>`, `Write<CommandBuffer>`); the current
batch is sealed first — leaving the flush system alone — only when they
conflict.  It is therefore not alone in its batch for every sequence of
previously added systems. -/
theorem flush_batch_placement (ops : List BuilderOp) :
    buildSchedule ops =
      (runOps ops).batches ++
        (if checkCompatible (runOps ops).currentBorrows flushBorrows then
          [(runOps ops).currentBatch ++ [flushDyn]]
        else
          [(runOps ops).currentBatch, [flushDyn]]) :=
  buildState_batches (runOps ops)

/-- C2 counterexample: after adding a single system that declares only
a shared access to an unrelated id, the built schedule's only batch
holds both that system and the flush system — the flush system is not
the only system in its batch. -/
theorem flush_not_alone_counterexample :
    buildSchedule [.addSystem ⟨1, [⟨5, false⟩], .user .empty none⟩] =
      [[⟨1, [⟨5, false⟩], .user .empty none⟩, flushDyn]] := by
  decide

/-! ## Sequential execution (`Schedule::execute_seq`, src/schedule.rs
lines 148-158)

`execute_seq` composes the caller's data bag with the schedule's own
command buffer, then drives every batch in order with `try_for_each`,
and every system inside a batch in insertion order with `try_for_each`,
short-circuiting on the first `Err`.  The execution state is the
optional world registered in the data bag plus the always-available
command buffer; the trace of invoked system ids makes the invocation
order observable. -/

/-- The mutable data visible to a running system. -/
structure ExecState where
  world : Option WorldT
  cmd : CommandBuffer
deriving DecidableEq, Repr

/-- Fieldwise concatenation of recorded operations: a user system
calling the `CommandBuffer` record methods appends to the respective
lists. -/
def CommandBuffer.appendOps (cb rec : CommandBuffer) : CommandBuffer :=
  ⟨cb.components ++ rec.components, cb.despawns ++ rec.despawns,
    cb.writes ++ rec.writes⟩

/-- Run one system against the state: a user system records its
operations and then returns `Ok` or a `SystemError` wrapping its own
name and cause (src/system.rs lines 60-66); the flush system executes
the command buffer on the world when one is present and is a no-op
otherwise (src/schedule.rs lines 296-301). -/
def runSystem (st : ExecState) (s : DynSystem) : ExecState × Option SError :=
  match s.kind with
  | .user rec fail =>
    let st' : ExecState := { st with cmd := st.cmd.appendOps rec }
    match fail with
    | some cause => (st', some (.systemError s.sid cause))
    | none => (st', none)
  | .flushSys =>
    match st.world with
    | some w =>
      let res := st.cmd.execute w
      ({ world := some res.1, cmd := res.2 }, none)
    | none => (st, none)

/-- `try_for_each` over the systems of one batch, threading the state
and recording each invoked system's id. -/
def runSystems (st : ExecState) (tr : List Nat) :
    List DynSystem → ExecState × List Nat × Option SError
  | [] => (st, tr, none)
  | s :: rest =>
    let r := runSystem st s
    match r.2 with
    | some e => (r.1, tr ++ [s.sid], some e)
    | none => runSystems r.1 (tr ++ [s.sid]) rest

/-- `try_for_each` over the batches. -/
def runBatches (st : ExecState) (tr : List Nat) :
    List (List DynSystem) → ExecState × List Nat × Option SError
  | [] => (st, tr, none)
  | b :: rest =>
    let r := runSystems st tr b
    match r.2.2 with
    | some _ => r
    | none => runBatches r.1 r.2.1 rest

/-- `Schedule::execute_seq`: the data bag (an optional world) composed
with the schedule's command buffer, then batch-by-batch sequential
execution. -/
def executeSeq (batches : List (List DynSystem)) (world : Option WorldT)
    (cmd0 : CommandBuffer) : ExecState × List Nat × Option SError :=
  runBatches ⟨world, cmd0⟩ [] batches

/-- The statically known failure of a system in this model: the
`Err` cause of a user system, and never for the flush system. -/
def failCode (s : DynSystem) : Option Nat :=
  match s.kind with
  | .user _ fail => fail
  | .flushSys => none

/-- Specification of sequential execution, following the spec's words:
systems run one after the other in order; the first failing system is
still invoked, its error is returned, and no later system is invoked. -/
def specRun : List DynSystem → List Nat × Option SError
  | [] => ([], none)
  | s :: rest =>
    match failCode s with
    | some cause => ([s.sid], some (.systemError s.sid cause))
    | none =>
      let r := specRun rest
      (s.sid :: r.1, r.2)

theorem runSystem_snd (st : ExecState) (s : DynSystem) :
    (runSystem st s).2 = (failCode s).map fun c => .systemError s.sid c := by
  rcases st with ⟨ow, cmd⟩
  rcases s with ⟨sid, borrows, k⟩
  rcases k with ⟨rec, fail⟩ | _
  · rcases fail with _ | c <;> simp [runSystem, failCode]
  · rcases ow with _ | w <;> simp [runSystem, failCode]

theorem specRun_cons_fail {s : DynSystem} {c : Nat} (h : failCode s = some c)
    (l : List DynSystem) :
    specRun (s :: l) = ([s.sid], some (.systemError s.sid c)) := by
  simp [specRun, h]

theorem specRun_cons_ok {s : DynSystem} (h : failCode s = none)
    (l : List DynSystem) :
    specRun (s :: l) = (s.sid :: (specRun l).1, (specRun l).2) := by
  simp [specRun, h]

theorem runSystems_spec (l : List DynSystem) :
    ∀ (st : ExecState) (tr : List Nat),
      (runSystems st tr l).2.1 = tr ++ (specRun l).1 ∧
      (runSystems st tr l).2.2 = (specRun l).2 := by
  induction l with
  | nil => intro st tr; simp [runSystems, specRun]
  | cons s rest ih =>
    intro st tr
    rcases hf : failCode s with _ | c
    · have h2 : (runSystem st s).2 = none := by rw [runSystem_snd, hf]; rfl
      simp only [runSystems, h2, specRun, hf]
      rcases ih (runSystem st s).1 (tr ++ [s.sid]) with ⟨ha, hb⟩
      simp [ha, hb]
    · have h2 : (runSystem st s).2 = some (.systemError s.sid c) := by
        rw [runSystem_snd, hf]; rfl
      simp [runSystems, h2, specRun, hf]

theorem specRun_append (l1 l2 : List DynSystem) :
    specRun (l1 ++ l2) =
      match (specRun l1).2 with
      | some e => ((specRun l1).1, some e)
      | none => ((specRun l1).1 ++ (specRun l2).1, (specRun l2).2) := by
  induction l1 with
  | nil => simp [specRun]
  | cons s rest ih =>
    rcases hf : failCode s with _ | c
    · rw [List.cons_append, specRun_cons_ok hf, specRun_cons_ok hf, ih]
      rcases h2 : (specRun rest).2 with _ | e <;> simp
    · rw [List.cons_append, specRun_cons_fail hf, specRun_cons_fail hf]

theorem runBatches_spec (bs : List (List DynSystem)) :
    ∀ (st : ExecState) (tr : List Nat),
      (runBatches st tr bs).2.1 = tr ++ (specRun bs.flatten).1 ∧
      (runBatches st tr bs).2.2 = (specRun bs.flatten).2 := by
  induction bs with
  | nil => intro st tr; simp [runBatches, specRun]
  | cons b rest ih =>
    intro st tr
    rcases runSystems_spec b st tr with ⟨ha, hb⟩
    rcases hr : (specRun b).2 with _ | e
    · have hb' : (runSystems st tr b).2.2 = none := by rw [hb, hr]
      rcases ih (runSystems st tr b).1 (runSystems st tr b).2.1 with ⟨hc, hd⟩
      rw [ha] at hc hd
      rw [List.flatten_cons, specRun_append, hr]
      simp only [runBatches, hb']
      rw [ha]
      simp [hc, hd, List.append_assoc]
    · have hb' : (runSystems st tr b).2.2 = some e := by rw [hb, hr]
      rw [List.flatten_cons, specRun_append, hr]
      simp only [runBatches, hb']
      simp [ha, hb, hr]

/-- C8: sequential execution invokes the batches in schedule order and
the systems of each batch in insertion order; the first failing system's
error is returned and no later system of that batch nor of any
subsequent batch is invoked — the trace and the outcome coincide with
the straight-line specification `specRun` on the flattened batch
list. -/
theorem executeSeq_runs_in_order (batches : List (List DynSystem))
    (world : Option WorldT) (cmd0 : CommandBuffer) :
    (executeSeq batches world cmd0).2.1 = (specRun batches.flatten).1 ∧
    (executeSeq batches world cmd0).2.2 = (specRun batches.flatten).2 := by
  rcases runBatches_spec batches ⟨world, cmd0⟩ [] with ⟨ha, hb⟩
  exact ⟨by simp [executeSeq, ha], by simp [executeSeq, hb]⟩

/-! ### Draining of the command buffer (claim C3) -/

/-- The state transformer of one system, ignoring the trace and the
outcome. -/
def stepState (st : ExecState) (s : DynSystem) : ExecState :=
  (runSystem st s).1

theorem runSystems_ok_state (l : List DynSystem) :
    ∀ (st : ExecState) (tr : List Nat),
      (runSystems st tr l).2.2 = none →
      (runSystems st tr l).1 = l.foldl stepState st := by
  induction l with
  | nil => intro st tr _; simp [runSystems]
  | cons s rest ih =>
    intro st tr h
    rcases h2 : (runSystem st s).2 with _ | e
    · simp only [runSystems, h2] at h ⊢
      exact ih _ _ h
    · simp [runSystems, h2] at h

theorem runBatches_ok_state (bs : List (List DynSystem)) :
    ∀ (st : ExecState) (tr : List Nat),
      (runBatches st tr bs).2.2 = none →
      (runBatches st tr bs).1 = bs.flatten.foldl stepState st := by
  induction bs with
  | nil => intro st tr _; simp [runBatches]
  | cons b rest ih =>
    intro st tr h
    rcases h2 : (runSystems st tr b).2.2 with _ | e
    · simp only [runBatches, h2] at h ⊢
      rw [ih _ _ h, runSystems_ok_state b st tr h2, List.flatten_cons,
        List.foldl_append]
    · simp [runBatches, h2] at h

theorem stepState_world (st : ExecState) (s : DynSystem) :
    (stepState st s).world.isSome = st.world.isSome := by
  rcases st with ⟨ow, cmd⟩
  rcases s with ⟨sid, borrows, k⟩
  rcases k with ⟨rec, fail⟩ | _
  · rcases fail with _ | c <;> simp [stepState, runSystem]
  · rcases ow with _ | w <;> simp [stepState, runSystem]

theorem foldl_stepState_world (l : List DynSystem) :
    ∀ st : ExecState, (l.foldl stepState st).world.isSome = st.world.isSome := by
  induction l with
  | nil => intro st; rfl
  | cons s rest ih =>
    intro st
    rw [List.foldl_cons, ih, stepState_world]

theorem stepState_flush_cmd (st : ExecState) (h : st.world.isSome = true) :
    (stepState st flushDyn).cmd = .empty := by
  rcases st with ⟨ow, cmd⟩
  rcases ow with _ | w
  · simp at h
  · simp [stepState, runSystem, flushDyn, CommandBuffer.execute]

/-- Every built schedule's flattened system list ends with the built-in
flush system. -/
theorem buildSchedule_flatten (ops : List BuilderOp) :
    ∃ l, (buildSchedule ops).flatten = l ++ [flushDyn] := by
  refine ⟨(runOps ops).batches.flatten ++ (runOps ops).currentBatch, ?_⟩
  rw [buildSchedule, buildState_batches]
  rcases checkCompatible (runOps ops).currentBorrows flushBorrows with _ | _ <;>
    simp [List.flatten_append, List.append_assoc]

/-- C3 (amended): for every built schedule and every data bag that
registers a `World` value, if sequential execution returns `Ok` then the
schedule's embedded command buffer holds no recorded operations
afterwards.  (When no world is registered the trailing flush is a no-op
and recorded operations remain; see the counterexample.) -/
theorem built_schedule_drains_cmd (ops : List BuilderOp) (w : WorldT)
    (cmd0 : CommandBuffer)
    (h : (executeSeq (buildSchedule ops) (some w) cmd0).2.2 = none) :
    (executeSeq (buildSchedule ops) (some w) cmd0).1.cmd = .empty := by
  have hstate := runBatches_ok_state (buildSchedule ops) ⟨some w, cmd0⟩ [] h
  rcases buildSchedule_flatten ops with ⟨l, hl⟩
  show (runBatches ⟨some w, cmd0⟩ [] (buildSchedule ops)).1.cmd = .empty
  rw [hstate, hl, List.foldl_append, List.foldl_cons, List.foldl_nil]
  exact stepState_flush_cmd _ (by rw [foldl_stepState_world]; rfl)

/-- A single system that records one spawn into the command buffer. -/
def recordingOps : List BuilderOp :=
  [.addSystem ⟨1, [], .user ⟨[7], [], []⟩ none⟩]

/-- Closed instance of `built_schedule_drains_cmd`: with a world
registered, executing the built schedule succeeds and leaves the command
buffer empty. -/
theorem built_schedule_drains_cmd_witness :
    (executeSeq (buildSchedule recordingOps) (some []) .empty).2.2 = none ∧
    (executeSeq (buildSchedule recordingOps) (some []) .empty).1.cmd = .empty :=
  ⟨by decide, built_schedule_drains_cmd recordingOps [] .empty (by decide)⟩

/-- C3 counterexample: when the data bag registers no `World`, the flush
system's `MaybeWrite<World>` is empty and `cmd.execute` is skipped, so
execution returns `Ok` while the embedded command buffer still holds the
recorded operation — refuting the claim's "including when the data bag
registers no World value" part. -/
theorem built_schedule_cmd_retained_counterexample :
    (executeSeq (buildSchedule recordingOps) none .empty).2.2 = none ∧
    (executeSeq (buildSchedule recordingOps) none .empty).1.cmd =
      CommandBuffer.mk [7] [] [] := by
  constructor <;> decide

/-! ## Context lookup (`src/context/mod.rs`)

The caller-supplied data bag becomes a sorted array of `ErasedCell`s
(`into_data`, src/context/mod.rs lines 72-96); `Data::get` (lines
98-117) binary-searches it by `TypeId`.  The array is modelled as a
list; `self[mid]` is modelled with `getD`, which agrees with Rust's
(panicking) indexing whenever `mid` stays in bounds — which the
correctness proof establishes for the searched window.  The claim
restricts the array size to `C >= 1`; for `C = 0` the Rust code
underflows `C - 1` and is out of this model. -/

/-- `ErasedCell` (src/context/erased_cell.rs): a `TypeId` plus the
borrow cell, the latter opaque here. -/
structure ErasedCell where
  id : Nat
  cell : Nat
deriving DecidableEq, Repr

/-- The loop of `Data::get` (src/context/mod.rs lines 100-115):
`while low <= high`, probe `mid = (high - low) / 2 + low`, step to
`[mid+1, high]` on `Less`, return the cell on `Equal`, break on
`Greater` at `mid == 0`, and step to `[low, mid-1]` otherwise. -/
def getLoop (cells : List ErasedCell) (ty : Nat) (low high : Nat) : Option Nat :=
  if _hlh : low ≤ high then
    match _hc : compare (cells.getD ((high - low) / 2 + low) ⟨0, 0⟩).id ty with
    | .lt => getLoop cells ty ((high - low) / 2 + low + 1) high
    | .eq => some (cells.getD ((high - low) / 2 + low) ⟨0, 0⟩).cell
    | .gt =>
      if _hm : (high - low) / 2 + low = 0 then none
      else getLoop cells ty low ((high - low) / 2 + low - 1)
  else
    none
termination_by high + 1 - low
decreasing_by
  · omega
  · omega

/-- `Data::get` for `[ErasedCell; C]`: the loop started on the full
window `[0, C-1]`. -/
def dataGet (cells : List ErasedCell) (ty : Nat) : Option Nat :=
  getLoop cells ty 0 (cells.length - 1)

/-- `Context::cell` (src/context/mod.rs lines 39-44): `data.get(id)`
with a missing entry turned into `MissingData` carrying the type's
name. -/
def contextCell (cells : List ErasedCell) (ty name : Nat) : Except SError Nat :=
  match dataGet cells ty with
  | some c => .ok c
  | none => .error (.missingData name)

theorem getD_eq_get {α : Type} (l : List α) (d : α) :
    ∀ (i : Nat) (h : i < l.length), l.getD i d = l.get ⟨i, h⟩ := by
  induction l with
  | nil => intro i h; simp at h
  | cons a rest ih =>
    intro i h
    rcases i with _ | j
    · rfl
    · simpa using ih j (by simpa using h)

theorem sorted_id_lt (cells : List ErasedCell)
    (hsorted : cells.Pairwise fun a b => a.id < b.id)
    {i j : Nat} (hij : i < j) (hj : j < cells.length) :
    (cells.getD i ⟨0, 0⟩).id < (cells.getD j ⟨0, 0⟩).id := by
  have hi : i < cells.length := lt_trans hij hj
  rw [getD_eq_get cells ⟨0, 0⟩ i hi, getD_eq_get cells ⟨0, 0⟩ j hj]
  exact List.pairwise_iff_get.mp hsorted ⟨i, hi⟩ ⟨j, hj⟩ hij

theorem getLoop_found (cells : List ErasedCell) (ty : Nat)
    (hsorted : cells.Pairwise fun a b => a.id < b.id) :
    ∀ (n low high i : Nat), high + 1 - low ≤ n →
      high < cells.length → low ≤ i → i ≤ high →
      (cells.getD i ⟨0, 0⟩).id = ty →
      getLoop cells ty low high = some (cells.getD i ⟨0, 0⟩).cell := by
  intro n
  induction n with
  | zero => intro low high i hn _ hli hih _; omega
  | succ n ih =>
    intro low high i hn hhigh hli hih hid
    have hlh : low ≤ high := le_trans hli hih
    have hd2 : (high - low) / 2 ≤ high - low := Nat.div_le_self _ _
    have hmidlo : low ≤ (high - low) / 2 + low := by omega
    have hmidhi : (high - low) / 2 + low ≤ high := by omega
    rw [getLoop]
    rcases hc : compare (cells.getD ((high - low) / 2 + low) ⟨0, 0⟩).id ty with _ | _ | _
    · have hlt : (cells.getD ((high - low) / 2 + low) ⟨0, 0⟩).id < ty :=
        Nat.compare_eq_lt.mp hc
      have hmi : (high - low) / 2 + low < i := by
        by_contra hcon
        push_neg at hcon
        rcases Nat.lt_or_ge i ((high - low) / 2 + low) with hlt' | hge
        · have := sorted_id_lt cells hsorted hlt'
            (lt_of_le_of_lt hmidhi hhigh)
          omega
        · have : i = (high - low) / 2 + low := le_antisymm hcon hge
          rw [this] at hid
          omega
      simp only [hlh, dite_true, hc]
      exact ih ((high - low) / 2 + low + 1) high i (by omega) hhigh (by omega) hih hid
    · have heq : (cells.getD ((high - low) / 2 + low) ⟨0, 0⟩).id = ty :=
        Nat.compare_eq_eq.mp hc
      have hieq : i = (high - low) / 2 + low := by
        by_contra hcon
        rcases Nat.lt_or_ge i ((high - low) / 2 + low) with hlt' | hge
        · have := sorted_id_lt cells hsorted hlt'
            (lt_of_le_of_lt hmidhi hhigh)
          omega
        · have hgt : (high - low) / 2 + low < i := lt_of_le_of_ne hge (fun h => hcon h.symm)
          have := sorted_id_lt cells hsorted hgt (lt_of_le_of_lt hih hhigh)
          omega
      simp only [hlh, dite_true, hc]
      rw [hieq]
    · have hgt : ty < (cells.getD ((high - low) / 2 + low) ⟨0, 0⟩).id :=
        Nat.compare_eq_gt.mp hc
      have him : i < (high - low) / 2 + low := by
        by_contra hcon
        push_neg at hcon
        rcases Nat.lt_or_ge ((high - low) / 2 + low) i with hlt' | hge
        · have := sorted_id_lt cells hsorted hlt' (lt_of_le_of_lt hih hhigh)
          omega
        · have : i = (high - low) / 2 + low := le_antisymm hge hcon
          rw [this] at hid
          omega
      have hm0 : (high - low) / 2 + low ≠ 0 := by omega
      simp only [hlh, dite_true, hc, hm0, dite_false]
      exact ih low ((high - low) / 2 + low - 1) i (by omega)
        (by omega) hli (by omega) hid

theorem getLoop_absent (cells : List ErasedCell) (ty : Nat) :
    ∀ (n low high : Nat), high + 1 - low ≤ n →
      high < cells.length →
      (∀ i, low ≤ i → i ≤ high → (cells.getD i ⟨0, 0⟩).id ≠ ty) →
      getLoop cells ty low high = none := by
  intro n
  induction n with
  | zero =>
    intro low high hn hhigh _
    have hlh : ¬ low ≤ high := by omega
    rw [getLoop]
    simp [hlh]
  | succ n ih =>
    intro low high hn hhigh habs
    by_cases hlh : low ≤ high
    · have hd2 : (high - low) / 2 ≤ high - low := Nat.div_le_self _ _
      have hmidlo : low ≤ (high - low) / 2 + low := by omega
      have hmidhi : (high - low) / 2 + low ≤ high := by omega
      have hne : (cells.getD ((high - low) / 2 + low) ⟨0, 0⟩).id ≠ ty :=
        habs _ hmidlo hmidhi
      rw [getLoop]
      rcases hc : compare (cells.getD ((high - low) / 2 + low) ⟨0, 0⟩).id ty with _ | _ | _
      · simp only [hlh, dite_true]
        exact ih ((high - low) / 2 + low + 1) high (by omega) hhigh
          (fun i h1 h2 => habs i (by omega) h2)
      · exact absurd (Nat.compare_eq_eq.mp hc) hne
      · simp only [hlh, dite_true]
        by_cases hm0 : (high - low) / 2 + low = 0
        · simp [hm0]
        · simp only [hm0, dite_false]
          exact ih low ((high - low) / 2 + low - 1) (by omega) (by omega)
            (fun i h1 h2 => habs i h1 (by omega))
    · rw [getLoop]
      simp [hlh]

/-- C7: over a sorted, duplicate-free array of at least one erased cell,
`Context::cell` returns the unique cell whose stored type id equals the
probe id when such an entry exists, and `Err(MissingData(name))` when no
entry has that id — for every probe id, including ids below the first
entry and above the last. -/
theorem context_cell_binary_search (cells : List ErasedCell) (ty name : Nat)
    (hne : cells ≠ [])
    (hsorted : cells.Pairwise fun a b => a.id < b.id) :
    (∀ c ∈ cells, c.id = ty → contextCell cells ty name = .ok c.cell) ∧
    ((∀ c ∈ cells, c.id ≠ ty) →
      contextCell cells ty name = .error (.missingData name)) := by
  have hlen : 1 ≤ cells.length := by
    rcases cells with _ | ⟨a, rest⟩
    · exact absurd rfl hne
    · simp
  constructor
  · intro c hc hcid
    rcases List.mem_iff_get.mp hc with ⟨⟨i, hi⟩, hget⟩
    have hgetD : cells.getD i ⟨0, 0⟩ = c := by
      rw [getD_eq_get cells ⟨0, 0⟩ i hi, hget]
    have hfound := getLoop_found cells ty hsorted cells.length 0
      (cells.length - 1) i (by omega) (by omega) (by omega) (by omega)
      (by rw [hgetD]; exact hcid)
    rw [contextCell, dataGet, hfound, hgetD]
  · intro habs
    have hnone := getLoop_absent cells ty cells.length 0 (cells.length - 1)
      (by omega) (by omega) ?_
    · rw [contextCell, dataGet, hnone]
    · intro i h1 h2
      have hi : i < cells.length := by omega
      rw [getD_eq_get cells ⟨0, 0⟩ i hi]
      exact habs _ (List.get_mem cells i hi)

/-- Closed instance of `context_cell_binary_search` on a three-entry
sorted array: the middle id is found, an absent id reports
`MissingData`. -/
theorem context_cell_binary_search_witness :
    contextCell [⟨3, 30⟩, ⟨5, 50⟩, ⟨9, 90⟩] 5 77 = .ok 50 ∧
    contextCell [⟨3, 30⟩, ⟨5, 50⟩, ⟨9, 90⟩] 4 77 = .error (.missingData 77) :=
  ⟨(context_cell_binary_search [⟨3, 30⟩, ⟨5, 50⟩, ⟨9, 90⟩] 5 77 (by decide)
      (by decide)).1 ⟨5, 50⟩ (by decide) rfl,
   (context_cell_binary_search [⟨3, 30⟩, ⟨5, 50⟩, ⟨9, 90⟩] 4 77 (by decide)
      (by decide)).2 (by decide)⟩

end HecsSchedule
